import Mathlib

/-!
Verification of `mai_data.pr_split`.

A shallow embedding of the PR-splitting core of `mai_data` (file
`src/mai_data/pr_split.py`): diff parsing (`parse_diff`), added-line
counting (`count_loc`), directory grouping (`group_by_directory`),
the atomic-splitting loop and orchestrator (`split_pr`), and an
event-trace model of the fetch layer (`fetch_diff`,
`convert_to_api_url`, the request headers, the cache helpers).

Text is modelled as `List Char`; Python strings appear through
`String.toList` at the edges.  Python dictionaries appear as ordered
association lists, matching the insertion-ordered iteration the code
relies on.
-/

namespace MaiData

/-- A line of text (Python string without line terminators). -/
abbrev Line := List Char

/-! ## Python `str.splitlines`

`str.splitlines` splits at every line boundary (`\n`, `\r`, `\r\n` and
the other Unicode line boundaries Python recognises) and drops the
terminators; a trailing terminator does not create a trailing empty
line, and `"".splitlines() == []`. -/

/-- The single-character line boundaries recognised by Python
`str.splitlines` (besides the two-character `\r\n`). -/
def isPyLineBreak (c : Char) : Bool :=
  c = '\n' || c = '\r' || c = '\x0b' || c = '\x0c' ||
  c = '\x1c' || c = '\x1d' || c = '\x1e' || c = '\x85' ||
  c = '\u2028' || c = '\u2029'

/-- Python `str.splitlines` (accumulator passes the current line,
reversed); `\r` immediately followed by `\n` is a single boundary. -/
def pySplitlinesGo : List Char → List Char → List Line
  | [], acc => if acc.isEmpty then [] else [acc.reverse]
  | '\r' :: '\n' :: rest, acc => acc.reverse :: pySplitlinesGo rest []
  | c :: rest, acc =>
      if isPyLineBreak c then acc.reverse :: pySplitlinesGo rest []
      else pySplitlinesGo rest (c :: acc)

/-- Python `text.splitlines()`. -/
def pySplitlines (s : List Char) : List Line := pySplitlinesGo s []

/-- Python `"\n".join(lines)`. -/
def joinLines (ls : List Line) : Line := List.intercalate ['\n'] ls

/-! ## Python `str.split(sep)[-1]`

`parse_diff` extracts the path from a header line as
`line.split(" b/")[-1]`: the suffix after the last of the
non-overlapping, left-to-right occurrences of `" b/"` (the whole line
when the separator does not occur). -/

/-- The remainder of `s` after the first occurrence of `sep`
(scanning left to right), or `none` when `sep` does not occur. -/
def dropAfterFirst (sep : List Char) : List Char → Option (List Char)
  | [] => if sep.isEmpty then some [] else none
  | c :: rest =>
      if sep.isPrefixOf (c :: rest) then some (List.drop sep.length (c :: rest))
      else dropAfterFirst sep rest

/-- Fuel-bounded iteration of `dropAfterFirst`; with fuel `s.length`
this computes Python `s.split(sep)[-1]` for a non-empty `sep` (each
step removes at least `sep.length ≥ 1` characters). -/
def splitLastFuel (sep : List Char) : Nat → List Char → List Char
  | 0, s => s
  | Nat.succ n, s =>
      match dropAfterFirst sep s with
      | none => s
      | some r => splitLastFuel sep n r

/-- Python `s.split(sep)[-1]` for non-empty `sep`. -/
def splitLast (sep s : List Char) : List Char := splitLastFuel sep s.length s

/-! ## `parse_diff` (pr_split.py lines 173–191) -/

/-- One per-file change record: Python dict
`{"path": ..., "patch": ...}`. -/
structure FileChange where
  path : Line
  patch : Line
  deriving DecidableEq, Repr

/-- Python `line.startswith("diff --git")`. -/
def isHeader (l : Line) : Bool := ("diff --git".toList).isPrefixOf l

/-- The path recorded for a header line: `line.split(" b/")[-1]`. -/
def extractPath (l : Line) : Line := splitLast (" b/".toList) l

/-- Python truthiness of `current_file` (`None` and `""` are falsy). -/
def truthyFile : Option Line → Bool
  | none => false
  | some f => !f.isEmpty

/-- The `files.append(...)` guarded by `if current_file and
current_patch`. -/
def flushFile (cf : Option Line) (cp : List Line) : List FileChange :=
  match cf with
  | none => []
  | some f => if !f.isEmpty && !cp.isEmpty then [⟨f, joinLines cp⟩] else []

/-- The loop of `parse_diff`, carrying `current_file` and
`current_patch`; at end of input the last open accumulator is
flushed. -/
def parseGo : List Line → Option Line → List Line → List FileChange
  | [], cf, cp => flushFile cf cp
  | l :: rest, cf, cp =>
      if isHeader l then
        flushFile cf cp ++ parseGo rest (some (extractPath l)) [l]
      else if truthyFile cf then
        parseGo rest cf (cp ++ [l])
      else
        parseGo rest cf cp

/-- Embeds `parse_diff(diff_text)`: parse a git diff into a list of file
changes. -/
def parse_diff (diffText : List Char) : List FileChange :=
  parseGo (pySplitlines diffText) none []

/-! ## `count_loc` (pr_split.py lines 194–196) -/

/-- The counting condition of `count_loc`:
`line.startswith("+") and not line.startswith("+++")`. -/
def countedAdd (l : Line) : Bool :=
  (['+'].isPrefixOf l) && !(['+', '+', '+'].isPrefixOf l)

/-- Embeds `count_loc(patch)`: `sum(1 for line in patch.splitlines() if
line.startswith("+") and not line.startswith("+++"))`. -/
def count_loc (patch : List Char) : Nat :=
  ((pySplitlines patch).filter countedAdd).length

/-! ## `group_by_directory` (pr_split.py lines 199–209)

`Path(file["path"]).parts` on POSIX: split on `/`, collapse repeated
separators, drop `.` components (keeping `..`), and, for an absolute
path, a root component (`/`, or `//` for a path starting with exactly
two slashes). -/

/-- Python `str.split(sep)` for a one-character separator
(`"".split("/") == [""]`). -/
def splitOnChar (sep : Char) : List Char → List (List Char)
  | [] => [[]]
  | c :: rest =>
      if c = sep then [] :: splitOnChar sep rest
      else
        match splitOnChar sep rest with
        | [] => [[c]]
        | p :: ps => (c :: p) :: ps

/-- Python `pathlib.PurePosixPath(p).parts`. -/
def pathParts (p : Line) : List Line :=
  let comps := (splitOnChar '/' p).filter (fun c => !c.isEmpty && c ≠ ['.'])
  match p with
  | '/' :: '/' :: rest =>
      if rest.head? = some '/' then ['/'] :: comps else ['/', '/'] :: comps
  | '/' :: _ => ['/'] :: comps
  | _ => comps

/-- Directory groups: a Python dict from top-level directory to its
files, modelled as an association list in insertion order. -/
abbrev DirGroups := List (Line × List FileChange)

/-- The update `groups[top_dir].append(file)`, creating the entry on first use
(appended at the end, matching dict insertion order). -/
def insertGroup : DirGroups → Line → FileChange → DirGroups
  | [], k, f => [(k, [f])]
  | (k', fs) :: rest, k, f =>
      if k' = k then (k', fs ++ [f]) :: rest
      else (k', fs) :: insertGroup rest k f

/-- The loop body of `group_by_directory`: a file with a multi-segment
path joins the group of its first segment; any other file joins no
group. -/
def groupStep (groups : DirGroups) (f : FileChange) : DirGroups :=
  match pathParts f.path with
  | top :: _ :: _ => insertGroup groups top f
  | _ => groups

/-- Embeds `group_by_directory(files)`: group files by their top-level
directory. -/
def group_by_directory (files : List FileChange) : DirGroups :=
  files.foldl groupStep []

/-! ## The splitting loop of `split_pr` (pr_split.py lines 247–260) -/

/-- One atomic diff: Python dict `{"title": ..., "patch": ...}`. -/
structure AtomicDiff where
  title : Line
  patch : Line
  deriving DecidableEq, Repr

/-- The configuration fields `split_pr` reads (`cfg.max_loc`,
`cfg.max_dirs`, `cfg.min_diffs`); Python integers, so `Int`. -/
structure SplitCfg where
  max_loc : Int
  max_dirs : Int
  min_diffs : Int
  deriving DecidableEq, Repr

/-- The sum `total_loc = sum(count_loc(f["patch"]) for f in dir_files)`. -/
def totalLoc (fs : List FileChange) : Nat :=
  (fs.map (fun f => count_loc f.patch)).sum

/-- The per-file atomic diff of the explode branch:
`{"title": f"Update {file['path']}", "patch": file["patch"]}`. -/
def explodeDiff (f : FileChange) : AtomicDiff :=
  ⟨"Update ".toList ++ f.path, f.patch⟩

/-- The whole-group atomic diff of the keep branch:
`{"title": f"Update {dir_name} directory",
  "patch": "\n".join(f["patch"] for f in dir_files)}`. -/
def keepDiff (g : Line × List FileChange) : AtomicDiff :=
  ⟨"Update ".toList ++ g.1 ++ " directory".toList,
   List.intercalate ['\n'] (g.2.map (fun f => f.patch))⟩

/-- The loop body deciding one group's contribution: explode when
`total_loc > cfg.max_loc or len(dir_groups) >= cfg.max_dirs`, keep
otherwise.  `nGroups` is `len(dir_groups)`, the same for every
group. -/
def emitGroup (nGroups : Nat) (cfg : SplitCfg) (g : Line × List FileChange) :
    List AtomicDiff :=
  if (totalLoc g.2 : Int) > cfg.max_loc ∨ (nGroups : Int) ≥ cfg.max_dirs then
    g.2.map explodeDiff
  else
    [keepDiff g]

/-- The `atomic_diffs` accumulation loop of `split_pr`. -/
def atomicDiffs (groups : DirGroups) (cfg : SplitCfg) : List AtomicDiff :=
  groups.foldl (fun acc g => acc ++ emitGroup groups.length cfg g) []

/-! ## The orchestrator `split_pr` (pr_split.py lines 212–276) -/

/-- The possible behaviours of `fetch_diff(diff_url)` as observed by
`split_pr`: a diff text, a raised `FileNotFoundError` (404, resource
gone), or any other raised exception. -/
inductive FetchOutcome where
  | ok (text : List Char)
  | gone
  | raised (msg : List Char)
  deriving DecidableEq, Repr

/-- A raw PR record: a JSON object modelled as an ordered association
list (values as strings).  `raw_json.get(k)`. -/
abbrev RawRecord := List (Line × Line)

/-- Python `raw_json.get(key)`. -/
def rawGet (raw : RawRecord) (key : Line) : Option Line :=
  (raw.find? (fun kv => kv.1 = key)).map (fun kv => kv.2)

/-- The record key `"diff_url"`. -/
def diffUrlKey : Line := "diff_url".toList

/-- The record key `"pr_id"`. -/
def prIdKey : Line := "pr_id".toList

/-- The record key `"repo"`. -/
def repoKey : Line := "repo".toList

/-- The successful return value of `split_pr`. -/
structure SplitResult where
  pr_id : Option Line
  repo : Option Line
  original_diff : List Char
  atomic_diffs : List AtomicDiff
  deriving DecidableEq, Repr

/-- Embeds `split_pr(raw_json, cfg)`, with the behaviour of `fetch_diff`
supplied as an oracle `fetch`.  Returns `none` ("no result") for an
empty record, a missing or falsy `diff_url`, a vanished diff
(`FileNotFoundError`), any other fetch exception, or a PR failing the
quality filter; the surrounding `try/except` converts every exception
to `none`, so the function is total into `Option`. -/
def split_pr (raw : RawRecord) (cfg : SplitCfg)
    (fetch : Line → FetchOutcome) : Option SplitResult :=
  if raw.isEmpty then none
  else
    match rawGet raw diffUrlKey with
    | none => none
    | some url =>
      if url.isEmpty then none
      else
        match fetch url with
        | .gone => none
        | .raised _ => none
        | .ok text =>
          let files := parse_diff text
          let groups := group_by_directory files
          let ads := atomicDiffs groups cfg
          if (ads.length : Int) < cfg.min_diffs then none
          else
            some ⟨rawGet raw prIdKey, rawGet raw repoKey,
                  text, ads⟩

/-! ## `convert_to_api_url` (pr_split.py lines 97–108) -/

/-- Python `s.strip("/")`: remove every leading and trailing `/`. -/
def stripSlashes (s : List Char) : List Char :=
  ((s.dropWhile (fun c => c = '/')).reverse.dropWhile (fun c => c = '/')).reverse

/-- Python `urlparse(u).path` for the URLs this module handles: the part
after the `scheme://host` prefix (the whole string when no `://`
occurs), truncated at the first `?` or `#`. -/
def urlPath (u : List Char) : List Char :=
  let core :=
    match dropAfterFirst ("://".toList) u with
    | none => u
    | some rest =>
        let afterHost := rest.dropWhile (fun c => c ≠ '/' && c ≠ '?' && c ≠ '#')
        if afterHost.head? = some '/' then afterHost else []
  core.takeWhile (fun c => c ≠ '?' && c ≠ '#')

/-- Fuel-bounded Python `s.replace(pat, rep)` (all non-overlapping
occurrences, left to right); fuel `s.length` suffices for a non-empty
`pat`. -/
def pyReplaceFuel (pat rep : List Char) : Nat → List Char → List Char
  | _, [] => []
  | 0, s => s
  | Nat.succ n, c :: rest =>
      if pat.isPrefixOf (c :: rest) then
        rep ++ pyReplaceFuel pat rep n (List.drop pat.length (c :: rest))
      else c :: pyReplaceFuel pat rep n rest

/-- Python `s.replace(pat, rep)` for non-empty `pat`. -/
def pyReplace (pat rep s : List Char) : List Char :=
  pyReplaceFuel pat rep s.length s

/-- The test `path_parts[-1].endswith(".diff")` (Python `split` never returns
an empty list, so the `none` case is unreachable). -/
def lastEndsWithDiff (ps : List (List Char)) : Bool :=
  match ps.getLast? with
  | some l => (".diff".toList).isSuffixOf l
  | none => false

/-- Embeds `convert_to_api_url(web_url)`: convert a GitHub web URL such as
`https://github.com/owner/repo/pull/123.diff` to the API URL
`https://api.github.com/repos/owner/repo/pulls/123`; any URL not
matching the pattern is returned unchanged. -/
def convert_to_api_url (webUrl : List Char) : List Char :=
  let pathParts := splitOnChar '/' (stripSlashes (urlPath webUrl))
  if 4 ≤ pathParts.length ∧ lastEndsWithDiff pathParts = true then
    "https://api.github.com/repos/".toList ++ pathParts.getD 0 [] ++
      ['/'] ++ pathParts.getD 1 [] ++ "/pulls/".toList ++
      pyReplace (".diff".toList) [] (pathParts.getD 3 [])
  else webUrl

/-! ## `fetch_diff` (pr_split.py lines 111–170) as an event trace

`fetch_diff` is network- and clock-dependent; it is modelled as a
function of the sequence of HTTP responses the server would return to
its successive requests, each bundled with the outcome of the three
time-dependent tests the code makes before that request.  The model
returns the ordered trace of observable effects together with the
Python result (returned text or raised exception). -/

/-- The environment of one pass through the body of `fetch_diff`:
`periodic` is `time.time() % 60 < 1`, `lowQuota` is
`_rate_limit_info["core"]["remaining"] < 100`, `pace` is whether the
per-host minimum interval requires a sleep, and
`status`/`retryAfter`/`body` describe the HTTP response. -/
structure Attempt where
  periodic : Bool
  lowQuota : Bool
  pace : Bool
  status : Nat
  retryAfter : Option Nat
  body : List Char
  deriving DecidableEq, Repr

/-- Observable effects of `fetch_diff`: a call to
`update_rate_limit_info` (itself a GET of the rate-limit endpoint), a
sleep of a whole number of seconds, the fractional per-host pacing
sleep, the GET of the diff, and calls to `get_cached_diff` /
`cache_diff` (content-addressed by the SHA-256 of the URL; the event
carries the URL itself). -/
inductive FetchEv where
  | rateCheck
  | sleep (secs : Nat)
  | paceWait
  | httpGet (url : Line) (headers : List (Line × Line))
  | cacheRead (url : Line)
  | cacheWrite (url : Line)
  deriving DecidableEq, Repr

/-- The exceptions `fetch_diff` can raise: `FileNotFoundError` on 404,
`requests.HTTPError` from `raise_for_status()` on another 4xx/5xx
status; `exhausted` marks running out of modelled responses (the code
itself just keeps retrying). -/
inductive FetchErr where
  | notFound
  | httpStatus (code : Nat)
  | exhausted
  deriving DecidableEq, Repr

/-- The request headers: module-level `HEADERS`, holding
`Authorization: token <GITHUB_TOKEN>` when the token is configured,
and always `Accept: application/vnd.github.v3.diff`. -/
def requestHeaders (tok : Option (List Char)) : List (Line × Line) :=
  (match tok with
   | some t => [("Authorization".toList, "token ".toList ++ t)]
   | none => []) ++
  [("Accept".toList, "application/vnd.github.v3.diff".toList)]

/-- The bookkeeping effects `fetch_diff` performs before one GET: the
periodic rate-limit refresh, the low-quota 60-second pause with
refresh, and the per-host pacing sleep. -/
def preEvents (a : Attempt) : List FetchEv :=
  (if a.periodic then [FetchEv.rateCheck] else []) ++
  (if a.lowQuota then [FetchEv.sleep 60, FetchEv.rateCheck] else []) ++
  (if a.pace then [FetchEv.paceWait] else [])

/-- Embeds `fetch_diff(url)` given the token configuration and the
per-attempt environments: emits the bookkeeping events, issues the GET
to `convert_to_api_url(url)`, raises `FileNotFoundError` on 404,
sleeps `Retry-After` (default 60) and recurses on 429, raises on any
other 4xx/5xx, and otherwise returns the response body.  No cache
event is ever emitted, mirroring the code. -/
def fetch_diff (tok : Option (List Char)) (url : List Char) :
    List Attempt → List FetchEv × Except FetchErr (List Char)
  | [] => ([], .error .exhausted)
  | a :: rest =>
      let apiUrl := convert_to_api_url url
      let evs := preEvents a ++ [FetchEv.httpGet apiUrl (requestHeaders tok)]
      if a.status = 404 then (evs, .error .notFound)
      else if a.status = 429 then
        let r := fetch_diff tok url rest
        (evs ++ [FetchEv.sleep (a.retryAfter.getD 60), FetchEv.rateCheck] ++ r.1,
         r.2)
      else if 400 ≤ a.status ∧ a.status < 600 then
        (evs, .error (.httpStatus a.status))
      else (evs, .ok a.body)

/-! ## The cache helpers (pr_split.py lines 80–94)

These are defined in the source but called from nowhere. The
persistent store maps URLs to stored diff text (the on-disk key is
the SHA-256 hex digest of the URL; the model keys by the URL
itself). -/

/-- The persistent diff cache as a map from URL to stored text. -/
abbrev CacheStore := List Char → Option (List Char)

/-- Embeds `get_cached_diff(url, cache_dir)`: the stored text for the URL's
key, or `None`. -/
def get_cached_diff (store : CacheStore) (url : List Char) :
    Option (List Char) :=
  store url

/-- Embeds `cache_diff(url, content, cache_dir)`: write the content under the
URL's key. -/
def cache_diff (store : CacheStore) (url content : List Char) : CacheStore :=
  fun u => if u = url then some content else store u

/-! ## The parser contract, in the spec's words

For the refinement claim about `parse_diff`, a second definition
follows §4.2 of the spec: a file change per header line, its patch
text the header line followed by every subsequent line up to (but not
including) the next header, the last accumulator flushed at end of
input, lines before the first header ignored (a header whose
extracted path is empty opens an accumulator the code can never
flush, so it yields no file change). -/

/-- Negation of `isHeader`, the guard of the spec's "until the next
header". -/
def notHeader (l : Line) : Bool := !isHeader l

/-- The parser behaviour as the spec states it (see section header). -/
def parseSpec : List Line → List FileChange
  | [] => []
  | l :: rest =>
      if isHeader l then
        (if (extractPath l).isEmpty then []
         else [⟨extractPath l, joinLines (l :: rest.takeWhile notHeader)⟩]) ++
        parseSpec (rest.dropWhile notHeader)
      else parseSpec rest
termination_by ls => ls.length
decreasing_by
  · exact Nat.lt_succ_of_le (List.dropWhile_suffix _).length_le
  · simp

/-! ## Source decomposition of the atomic diffs

For the partition claim, each emitted atomic diff is paired with the
file changes its patch text was built from: the single file change of
an exploded diff, the group's members for a kept diff. -/

/-- Like `emitGroup`, with each emitted diff paired with its source file
changes. -/
def diffSources (nGroups : Nat) (cfg : SplitCfg) (g : Line × List FileChange) :
    List (AtomicDiff × List FileChange) :=
  if (totalLoc g.2 : Int) > cfg.max_loc ∨ (nGroups : Int) ≥ cfg.max_dirs then
    g.2.map (fun f => (explodeDiff f, [f]))
  else [(keepDiff g, g.2)]

/-- The emitted atomic diffs of a PR, each paired with its source
file changes. -/
def diffsWithSources (groups : DirGroups) (cfg : SplitCfg) :
    List (AtomicDiff × List FileChange) :=
  groups.flatMap (diffSources groups.length cfg)

/-- Whether a file change belongs to some directory group: its path
has more than one segment (the guard of `group_by_directory`). -/
def isGrouped (f : FileChange) : Bool :=
  match pathParts f.path with
  | _ :: _ :: _ => true
  | _ => false

/-! ## Concrete sample inputs for witnesses and counterexamples -/

/-- A diff touching `a/x.go` (grouped under directory `a`) and
`README` (single-segment path, joining no group). -/
def sampleDiff : List Char :=
  ("diff --git a/a/x.go b/a/x.go\n" ++
   "--- a/a/x.go\n" ++
   "+++ b/a/x.go\n" ++
   "+foo\n" ++
   "diff --git a/README b/README\n" ++
   "--- a/README\n" ++
   "+++ b/README\n" ++
   "+bar").toList

/-- The file change `parse_diff` produces for `README` in
`sampleDiff`. -/
def readmeChange : FileChange :=
  ⟨"README".toList,
   ("diff --git a/README b/README\n--- a/README\n+++ b/README\n+bar").toList⟩

/-- The file change `parse_diff` produces for `a/x.go` in
`sampleDiff`. -/
def axChange : FileChange :=
  ⟨"a/x.go".toList,
   ("diff --git a/a/x.go b/a/x.go\n--- a/a/x.go\n+++ b/a/x.go\n+foo").toList⟩

/-- A permissive configuration: thresholds that keep `sampleDiff`'s
single group intact and keep the PR. -/
def sampleCfg : SplitCfg := ⟨1000, 1000, 1⟩

/-- Like `sampleCfg` but demanding at least two atomic diffs. -/
def strictCfg : SplitCfg := ⟨1000, 1000, 2⟩

/-- A configuration whose `max_loc` equals `sampleDiff`'s single
group's added-line count (one line), for the threshold boundary. -/
def boundaryCfg : SplitCfg := ⟨1, 1000, 1⟩

/-- A fetch oracle that always raises a generic exception. -/
def failFetch : Line → FetchOutcome := fun _ => .raised ("boom".toList)

/-- A raw record whose `diff_url` is fetched as `sampleDiff`. -/
def sampleRaw : RawRecord :=
  [("pr_id".toList, "17".toList),
   ("repo".toList, "octocat/hello".toList),
   ("diff_url".toList, "https://github.com/octocat/hello/pull/42.diff".toList)]

/-- A fetch oracle returning `sampleDiff` for every URL. -/
def sampleFetch : Line → FetchOutcome := fun _ => .ok sampleDiff

/-- The web diff URL of `sampleRaw`. -/
def sampleUrl : List Char :=
  "https://github.com/octocat/hello/pull/42.diff".toList

/-- A successful HTTP attempt (status 200, body `D`) with no pause or
rate-limit event pending. -/
def okAttempt : Attempt := ⟨false, false, false, 200, none, "D".toList⟩

/-- A 429 attempt carrying a `Retry-After: 7` hint. -/
def limitedAttempt : Attempt := ⟨false, false, false, 429, some 7, []⟩

/-- A 429 attempt with no `Retry-After` header. -/
def limitedAttemptNoHint : Attempt := ⟨false, false, false, 429, none, []⟩

/-! ## Lemmas: the parser -/

lemma parseSpec_nil : parseSpec [] = [] := by
  rw [parseSpec]

lemma parseSpec_cons (l : Line) (rest : List Line) :
    parseSpec (l :: rest) =
      if isHeader l then
        (if (extractPath l).isEmpty then []
         else [⟨extractPath l, joinLines (l :: rest.takeWhile notHeader)⟩]) ++
        parseSpec (rest.dropWhile notHeader)
      else parseSpec rest := by
  rw [parseSpec]

/-- The function `parseSpec` ignores lines before the first header. -/
lemma parseSpec_dropWhile (lines : List Line) :
    parseSpec (lines.dropWhile notHeader) = parseSpec lines := by
  induction lines with
  | nil => simp
  | cons l rest ih =>
    cases hl : isHeader l with
    | true =>
      have hnh : notHeader l = false := by simp [notHeader, hl]
      simp [List.dropWhile_cons, hnh]
    | false =>
      have hnh : notHeader l = true := by simp [notHeader, hl]
      rw [List.dropWhile_cons, if_pos hnh, ih, parseSpec_cons, if_neg (by simp [hl])]

/-- The state-machine loop of `parse_diff` computes `parseSpec`:
stated simultaneously for the three reachable state shapes (no open
file, an open file with empty extracted path, an open file with
non-empty path and non-empty accumulator). -/
lemma parseGo_spec (lines : List Line) :
    (∀ cp, parseGo lines none cp = parseSpec lines) ∧
    (∀ acc, parseGo lines (some []) acc = parseSpec lines) ∧
    (∀ p acc, p ≠ [] → acc ≠ [] →
      parseGo lines (some p) acc =
        ⟨p, joinLines (acc ++ lines.takeWhile notHeader)⟩ ::
          parseSpec (lines.dropWhile notHeader)) := by
  induction lines with
  | nil =>
    refine ⟨?_, ?_, ?_⟩
    · intro cp; simp [parseGo, flushFile, parseSpec_nil]
    · intro acc; simp [parseGo, flushFile, parseSpec_nil]
    · intro p acc hp hacc
      simp [parseGo, flushFile, parseSpec_nil, hp, hacc]
  | cons l rest ih =>
    obtain ⟨ih1, ih2, ih3⟩ := ih
    cases hl : isHeader l with
    | false =>
      have hnh : notHeader l = true := by simp [notHeader, hl]
      refine ⟨?_, ?_, ?_⟩
      · intro cp
        rw [parseGo, if_neg (by simp [hl]), if_neg (by simp [truthyFile]),
          ih1, parseSpec_cons, if_neg (by simp [hl])]
      · intro acc
        rw [parseGo, if_neg (by simp [hl]), if_neg (by simp [truthyFile]),
          ih2, parseSpec_cons, if_neg (by simp [hl])]
      · intro p acc hp hacc
        rw [parseGo, if_neg (by simp [hl]),
          if_pos (by simp [truthyFile, hp]),
          ih3 p (acc ++ [l]) hp (by simp),
          List.takeWhile_cons, if_pos hnh, List.dropWhile_cons, if_pos hnh]
        simp
    | true =>
      have hnh : notHeader l = false := by simp [notHeader, hl]
      have key : parseGo rest (some (extractPath l)) [l] = parseSpec (l :: rest) := by
        cases he : (extractPath l).isEmpty with
        | true =>
          have he' : extractPath l = [] := by simpa using he
          rw [he', ih2, parseSpec_cons, if_pos (by simp [hl]), he']
          simp [parseSpec_dropWhile]
        | false =>
          have he' : extractPath l ≠ [] := by simpa using he
          rw [ih3 (extractPath l) [l] he' (by simp),
            parseSpec_cons, if_pos (by simp [hl]), if_neg (by simp [he])]
          simp
      refine ⟨?_, ?_, ?_⟩
      · intro cp
        rw [parseGo, if_pos (by simp [hl])]
        simp [flushFile, key]
      · intro acc
        rw [parseGo, if_pos (by simp [hl])]
        simp [flushFile, key]
      · intro p acc hp hacc
        rw [parseGo, if_pos (by simp [hl]), key,
          List.takeWhile_cons, if_neg (by simp [hnh]),
          List.dropWhile_cons, if_neg (by simp [hnh])]
        simp [flushFile, hp, hacc]

/-- The first line of a produced patch text is a prefix of the whole
patch text. -/
lemma prefix_joinLines (l : Line) (blk : List Line) :
    l <+: joinLines (l :: blk) := by
  cases blk with
  | nil => simp [joinLines, List.intercalate]
  | cons b bs => simp [joinLines, List.intercalate]

/-- Every file change `parseSpec` produces has a patch text starting
with a `diff --git` header line. -/
lemma parseSpec_patch_header :
    ∀ (n : Nat) (lines : List Line), lines.length ≤ n →
      ∀ fc ∈ parseSpec lines, ("diff --git".toList).isPrefixOf fc.patch = true := by
  intro n
  induction n with
  | zero =>
    intro lines hlen fc hfc
    rw [List.length_eq_zero.mp (Nat.le_zero.mp hlen)] at hfc
    simp [parseSpec_nil] at hfc
  | succ n ihn =>
    intro lines hlen fc hfc
    cases lines with
    | nil => simp [parseSpec_nil] at hfc
    | cons l rest =>
      rw [parseSpec_cons] at hfc
      cases hl : isHeader l with
      | false =>
        rw [if_neg (by simp [hl])] at hfc
        exact ihn rest (by simpa using Nat.le_of_succ_le_succ hlen) fc hfc
      | true =>
        rw [if_pos (by simp [hl])] at hfc
        rcases List.mem_append.mp hfc with hin | hin
        · cases he : (extractPath l).isEmpty with
          | true => rw [if_pos (by simp [he])] at hin; simp at hin
          | false =>
            rw [if_neg (by simp [he])] at hin
            have hfc' : fc = ⟨extractPath l, joinLines (l :: rest.takeWhile notHeader)⟩ := by
              simpa using hin
            rw [hfc']
            exact List.isPrefixOf_iff_prefix.mpr
              ((List.isPrefixOf_iff_prefix.mp hl).trans (prefix_joinLines _ _))
        · exact ihn (rest.dropWhile notHeader)
            (le_trans (List.dropWhile_suffix _).length_le
              (by simpa using Nat.le_of_succ_le_succ hlen)) fc hin

/-- C4.  For every diff text, each `FileChange` produced by
`parse_diff` corresponds to one `diff --git` header line of the input;
its `patch` begins with that header line and contains, in order, every
subsequent line up to (but not including) the next header line, with
the last open accumulator flushed at end of input — this is exactly
`parseSpec`, the spec's description of the parser. -/
theorem parse_diff_matches_spec :
    ∀ text : List Char,
      parse_diff text = parseSpec (pySplitlines text) ∧
      ∀ fc ∈ parse_diff text, ("diff --git".toList).isPrefixOf fc.patch = true := by
  intro text
  have h := (parseGo_spec (pySplitlines text)).1 []
  refine ⟨h, ?_⟩
  intro fc hfc
  rw [parse_diff] at hfc
  rw [h] at hfc
  exact parseSpec_patch_header _ _ le_rfl fc hfc

/-- Witness for C4 at the sample diff: the refinement holds there and
the `README` file change of the sample diff indeed begins with its
header line. -/
theorem parse_diff_matches_spec_witness :
    parse_diff sampleDiff = parseSpec (pySplitlines sampleDiff) ∧
    ("diff --git".toList).isPrefixOf readmeChange.patch = true :=
  ⟨(parse_diff_matches_spec sampleDiff).1,
   (parse_diff_matches_spec sampleDiff).2 readmeChange (by decide)⟩

/-- A header-free line list parses to nothing. -/
lemma parseSpec_no_header (lines : List Line)
    (h : ∀ l ∈ lines, isHeader l = false) : parseSpec lines = [] := by
  induction lines with
  | nil => exact parseSpec_nil
  | cons l rest ih =>
    rw [parseSpec_cons, if_neg (by simp [h l (by simp)])]
    exact ih (fun l' hl' => h l' (by simp [hl']))

/-- C5.  `parse_diff` is a total function into ordered lists of file
changes (it can never raise), and an input none of whose lines starts
with `diff --git` — malformed or otherwise — yields the empty
sequence. -/
theorem parse_diff_no_header_empty :
    ∀ text : List Char,
      (∀ l ∈ pySplitlines text, isHeader l = false) → parse_diff text = [] := by
  intro text h
  rw [parse_diff, (parseGo_spec (pySplitlines text)).1 [],
    parseSpec_no_header _ h]

/-- Witness for C5: a malformed, header-free input yields `[]`. -/
theorem parse_diff_no_header_empty_witness :
    (∀ l ∈ pySplitlines ("@@ -1,2 +1,2 @@\n+x\n-y\nhello".toList),
        isHeader l = false) ∧
    parse_diff ("@@ -1,2 +1,2 @@\n+x\n-y\nhello".toList) = [] :=
  ⟨by decide, parse_diff_no_header_empty _ (by decide)⟩

/-! ## Lemmas: grouping and the partition property -/

/-- The update `insertGroup` adds exactly the inserted file to the multiset of
grouped files. -/
lemma insertGroup_flatMap (gs : DirGroups) (k : Line) (f : FileChange) :
    ((insertGroup gs k f).flatMap (fun g => g.2)).Perm
      ((gs.flatMap (fun g => g.2)) ++ [f]) := by
  induction gs with
  | nil => simp [insertGroup]
  | cons g rest ih =>
    obtain ⟨k', fs⟩ := g
    by_cases hk : k' = k
    · simp only [insertGroup, if_pos hk, List.flatMap_cons]
      rw [List.append_assoc, List.append_assoc]
      exact List.Perm.append_left fs List.perm_append_comm
    · simp only [insertGroup, if_neg hk, List.flatMap_cons]
      rw [List.append_assoc]
      exact List.Perm.append_left fs ih

/-- The grouping loop collects, as a multiset, exactly the files whose
path has more than one segment. -/
lemma groupFold_flatMap (files : List FileChange) :
    ∀ gs : DirGroups,
      ((files.foldl groupStep gs).flatMap (fun g => g.2)).Perm
        ((gs.flatMap (fun g => g.2)) ++ files.filter isGrouped) := by
  induction files with
  | nil => intro gs; simp
  | cons f fs ih =>
    intro gs
    rw [List.foldl_cons]
    refine (ih (groupStep gs f)).trans ?_
    cases hg : isGrouped f with
    | true =>
      have hstep : ∃ top, groupStep gs f = insertGroup gs top f := by
        unfold isGrouped at hg
        unfold groupStep
        cases hp : pathParts f.path with
        | nil => rw [hp] at hg; simp at hg
        | cons a t =>
          cases t with
          | nil => rw [hp] at hg; simp at hg
          | cons b t2 => exact ⟨a, rfl⟩
      obtain ⟨top, hstep⟩ := hstep
      rw [hstep, List.filter_cons, if_pos hg]
      refine ((insertGroup_flatMap gs top f).append_right _).trans ?_
      rw [List.append_assoc]
      exact List.Perm.refl _
    | false =>
      have hstep : groupStep gs f = gs := by
        unfold isGrouped at hg
        unfold groupStep
        cases hp : pathParts f.path with
        | nil => rfl
        | cons a t =>
          cases t with
          | nil => rfl
          | cons b t2 => rw [hp] at hg; simp at hg
      rw [hstep, List.filter_cons, if_neg (by simp [hg])]

/-- The multiset of grouped files is the parse output restricted to
multi-segment paths. -/
lemma group_by_directory_flatMap (files : List FileChange) :
    ((group_by_directory files).flatMap (fun g => g.2)).Perm
      (files.filter isGrouped) := by
  have h := groupFold_flatMap files []
  simpa [group_by_directory] using h

/-- Both branches of the splitting decision carry exactly the group's
members as sources. -/
lemma diffSources_flatMap (n : Nat) (cfg : SplitCfg)
    (g : Line × List FileChange) :
    (diffSources n cfg g).flatMap (fun d => d.2) = g.2 := by
  unfold diffSources
  split
  · rw [List.flatMap_map]; simp
  · simp

/-- Generic shape of the `atomic_diffs` accumulation loop. -/
lemma foldl_append_eq_flatMap {α β : Type} (f : α → List β) :
    ∀ (l : List α) (acc : List β),
      l.foldl (fun a x => a ++ f x) acc = acc ++ l.flatMap f := by
  intro l
  induction l with
  | nil => intro acc; simp
  | cons x xs ih => intro acc; rw [List.foldl_cons, ih, List.flatMap_cons]; simp

/-- The splitting loop emits, in order, each group's contribution. -/
lemma atomicDiffs_eq_flatMap (groups : DirGroups) (cfg : SplitCfg) :
    atomicDiffs groups cfg = groups.flatMap (emitGroup groups.length cfg) := by
  unfold atomicDiffs
  rw [foldl_append_eq_flatMap]
  simp

/-- Dropping the sources from `diffSources` gives `emitGroup`. -/
lemma diffSources_fst (n : Nat) (cfg : SplitCfg) (g : Line × List FileChange) :
    (diffSources n cfg g).map Prod.fst = emitGroup n cfg g := by
  unfold diffSources emitGroup
  split
  · rw [List.map_map]; rfl
  · rfl

/-- The list `diffsWithSources` is the emitted atomic-diff list, each diff
paired with its sources. -/
lemma diffsWithSources_fst (groups : DirGroups) (cfg : SplitCfg) :
    (diffsWithSources groups cfg).map Prod.fst = atomicDiffs groups cfg := by
  rw [diffsWithSources, atomicDiffs_eq_flatMap, List.map_flatMap]
  simp only [diffSources_fst]

lemma joinLines_cons₂ (x y : Line) (zs : List Line) :
    joinLines (x :: y :: zs) = x ++ '\n' :: joinLines (y :: zs) := by
  simp [joinLines, List.intercalate, List.intersperse]

/-- A member's patch text is an infix of the joined patch text. -/
lemma mem_infix_joinLines (x : Line) :
    ∀ ps : List Line, x ∈ ps → x <:+: joinLines ps := by
  intro ps
  induction ps with
  | nil => intro h; simp at h
  | cons p qs ih =>
    intro hx
    rcases List.mem_cons.mp hx with h | h
    · subst h; exact (prefix_joinLines x qs).isInfix
    · cases qs with
      | nil => simp at h
      | cons q qs2 =>
        obtain ⟨s, t, hst⟩ := ih h
        rw [joinLines_cons₂]
        exact ⟨p ++ '\n' :: s, t, by rw [← hst]; simp⟩

/-- C1 (amended).  The emitted atomic diffs partition the *grouped*
file changes: pairing each atomic diff with its source file changes
(`diffsWithSources`, whose first components are exactly the emitted
`atomicDiffs`), every file change whose path has more than one segment
occurs among the sources exactly as often as in the parse output — in
particular exactly once when parsed once — and each source's patch
text occurs inside its diff's patch text.  Single-segment files are
dropped by `group_by_directory`, which is what refutes the claim as
stated (see the counterexample). -/
theorem atomic_diffs_partition :
    ∀ (text : List Char) (cfg : SplitCfg) (f : FileChange),
      isGrouped f = true →
      ((diffsWithSources (group_by_directory (parse_diff text)) cfg).map Prod.fst
          = atomicDiffs (group_by_directory (parse_diff text)) cfg) ∧
      (List.count f ((diffsWithSources (group_by_directory (parse_diff text)) cfg).flatMap
            (fun d => d.2)) = List.count f (parse_diff text)) ∧
      (∀ ds ∈ diffsWithSources (group_by_directory (parse_diff text)) cfg,
        ∀ m ∈ ds.2, m.patch <:+: ds.1.patch) := by
  intro text cfg f hf
  refine ⟨diffsWithSources_fst _ _, ?_, ?_⟩
  · rw [diffsWithSources, List.flatMap_assoc]
    simp only [diffSources_flatMap]
    rw [(group_by_directory_flatMap (parse_diff text)).count_eq f,
      List.count_filter hf]
  · intro ds hds m hm
    rw [diffsWithSources] at hds
    obtain ⟨g, _, hdsg⟩ := List.mem_flatMap.mp hds
    unfold diffSources at hdsg
    split at hdsg
    · obtain ⟨s, _, hs⟩ := List.mem_map.mp hdsg
      rw [← hs] at hm ⊢
      have hms : m = s := by simpa using hm
      rw [hms]
      exact List.infix_rfl
    · have hds' : ds = (keepDiff g, g.2) := by simpa using hdsg
      rw [hds'] at hm ⊢
      exact mem_infix_joinLines m.patch (g.2.map (fun f => f.patch))
        (List.mem_map_of_mem _ hm)

/-- C1 counterexample.  For `sampleDiff` and `sampleCfg` the
orchestrator returns a non-empty result, the parser produces the
`README` file change, yet that file change is a source of none of the
emitted atomic diffs — its patch text is an infix of none of them.
One parsed `FileChange` appears in zero (not exactly one) emitted
atomic diffs. -/
theorem single_segment_file_dropped :
    (split_pr sampleRaw sampleCfg sampleFetch).isSome = true ∧
    readmeChange ∈ parse_diff sampleDiff ∧
    ((diffsWithSources (group_by_directory (parse_diff sampleDiff)) sampleCfg).filter
        (fun ds => decide (readmeChange ∈ ds.2))).length = 0 ∧
    (atomicDiffs (group_by_directory (parse_diff sampleDiff)) sampleCfg).all
        (fun d => !(decide (readmeChange.patch <:+: d.patch))) = true := by
  decide

/-- Witness for C1 at the sample diff: `a/x.go` is grouped and occurs
among the sources exactly as often as in the parse output. -/
theorem atomic_diffs_partition_witness :
    isGrouped axChange = true ∧
    List.count axChange
        ((diffsWithSources (group_by_directory (parse_diff sampleDiff)) sampleCfg).flatMap
          (fun d => d.2)) = List.count axChange (parse_diff sampleDiff) :=
  ⟨by decide,
   ((atomic_diffs_partition sampleDiff sampleCfg axChange (by decide)).2).1⟩

/-! ## The splitting decision and the quality filter -/

/-- C2.  The atomic-diff list is the in-order concatenation of each
group's contribution, where a group is exploded into one per-file diff
exactly when its added-line count exceeds `max_loc` or the total group
count is at least `max_dirs` (the same total count for every group),
and is otherwise kept as one whole-group diff; in particular a group
whose added-line count equals `max_loc` (with group count below
`max_dirs`) is kept intact. -/
theorem split_decision_per_group :
    ∀ (groups : DirGroups) (cfg : SplitCfg) (g : Line × List FileChange),
      g ∈ groups →
      (atomicDiffs groups cfg = groups.flatMap (emitGroup groups.length cfg)) ∧
      (((totalLoc g.2 : Int) > cfg.max_loc ∨ (groups.length : Int) ≥ cfg.max_dirs) →
        emitGroup groups.length cfg g = g.2.map explodeDiff) ∧
      ((totalLoc g.2 : Int) ≤ cfg.max_loc ∧ (groups.length : Int) < cfg.max_dirs →
        emitGroup groups.length cfg g = [keepDiff g]) ∧
      ((totalLoc g.2 : Int) = cfg.max_loc ∧ (groups.length : Int) < cfg.max_dirs →
        emitGroup groups.length cfg g = [keepDiff g]) := by
  intro groups cfg g _
  refine ⟨atomicDiffs_eq_flatMap groups cfg, ?_, ?_, ?_⟩
  · intro h; rw [emitGroup, if_pos h]
  · intro h; rw [emitGroup, if_neg (by omega)]
  · intro h; rw [emitGroup, if_neg (by omega)]

/-- Witness for C2: `sampleDiff`'s single group has added-line count
exactly `boundaryCfg.max_loc` and is kept intact. -/
theorem split_decision_per_group_witness :
    (("a".toList, [axChange]) ∈ group_by_directory (parse_diff sampleDiff)) ∧
    (totalLoc [axChange] : Int) = boundaryCfg.max_loc ∧
    ((group_by_directory (parse_diff sampleDiff)).length : Int) < boundaryCfg.max_dirs ∧
    emitGroup (group_by_directory (parse_diff sampleDiff)).length boundaryCfg
        ("a".toList, [axChange]) = [keepDiff ("a".toList, [axChange])] :=
  ⟨by decide, by decide, by decide,
   (split_decision_per_group (group_by_directory (parse_diff sampleDiff))
      boundaryCfg ("a".toList, [axChange]) (by decide)).2.2.2
     ⟨by decide, by decide⟩⟩

/-- C3.  On a record that reaches the splitting stage (non-empty, with
a truthy `diff_url`, whose fetch returns a diff text), a `SplitResult`
is returned exactly when the number of emitted atomic diffs is at
least `min_diffs`: at least `min_diffs` diffs yields the full result,
one fewer yields `none`. -/
theorem min_diffs_quality_filter :
    ∀ (raw : RawRecord) (cfg : SplitCfg) (fetch : Line → FetchOutcome)
      (url text : List Char),
      raw.isEmpty = false →
      rawGet raw diffUrlKey = some url →
      url.isEmpty = false →
      fetch url = .ok text →
      ((((atomicDiffs (group_by_directory (parse_diff text)) cfg).length : Int) ≥
            cfg.min_diffs →
        split_pr raw cfg fetch =
          some ⟨rawGet raw prIdKey, rawGet raw repoKey, text,
                atomicDiffs (group_by_directory (parse_diff text)) cfg⟩) ∧
       (((atomicDiffs (group_by_directory (parse_diff text)) cfg).length : Int) <
            cfg.min_diffs →
        split_pr raw cfg fetch = none)) := by
  intro raw cfg fetch url text hraw hurl hne hfetch
  constructor <;> intro h <;>
    simp only [split_pr, hraw, hurl, hne, hfetch, Bool.false_eq_true,
      if_false] <;>
    [rw [if_neg (by omega)]; rw [if_pos (by omega)]]

/-- Witness for C3: `sampleDiff` yields exactly one atomic diff, which
is kept with `min_diffs = 1` and dropped with `min_diffs = 2`. -/
theorem min_diffs_quality_filter_witness :
    sampleRaw.isEmpty = false ∧
    rawGet sampleRaw diffUrlKey = some sampleUrl ∧
    sampleUrl.isEmpty = false ∧
    sampleFetch sampleUrl = .ok sampleDiff ∧
    (atomicDiffs (group_by_directory (parse_diff sampleDiff)) sampleCfg).length = 1 ∧
    split_pr sampleRaw sampleCfg sampleFetch =
      some ⟨rawGet sampleRaw prIdKey, rawGet sampleRaw repoKey,
            sampleDiff, atomicDiffs (group_by_directory (parse_diff sampleDiff)) sampleCfg⟩ ∧
    split_pr sampleRaw strictCfg sampleFetch = none :=
  ⟨by decide, by decide, by decide, rfl, by decide,
   (min_diffs_quality_filter sampleRaw sampleCfg sampleFetch sampleUrl sampleDiff
      (by decide) (by decide) (by decide) rfl).1 (by decide),
   (min_diffs_quality_filter sampleRaw strictCfg sampleFetch sampleUrl sampleDiff
      (by decide) (by decide) (by decide) rfl).2 (by decide)⟩

/-- C6.  `split_pr` is total into `Option` (every exception in the
fetch/parse/group/split chain is caught and becomes `none`): an empty
record, a missing or empty `diff_url`, a vanished diff
(`FileNotFoundError`), and any other exception raised by the fetch all
yield `none` rather than an error. -/
theorem split_pr_failure_containment :
    ∀ (raw : RawRecord) (cfg : SplitCfg) (fetch : Line → FetchOutcome),
      (raw = [] → split_pr raw cfg fetch = none) ∧
      (rawGet raw diffUrlKey = none → split_pr raw cfg fetch = none) ∧
      (∀ url, rawGet raw diffUrlKey = some url →
        (url = [] → split_pr raw cfg fetch = none) ∧
        (fetch url = .gone → split_pr raw cfg fetch = none) ∧
        (∀ e, fetch url = .raised e → split_pr raw cfg fetch = none)) := by
  intro raw cfg fetch
  refine ⟨?_, ?_, ?_⟩
  · intro h; subst h; rfl
  · intro h
    cases hre : raw.isEmpty <;> simp [split_pr, hre, h]
  · intro url hu
    refine ⟨?_, ?_, ?_⟩
    · intro h; subst h
      cases hre : raw.isEmpty <;> simp [split_pr, hre, hu]
    · intro hg
      cases hre : raw.isEmpty <;> cases url <;>
        simp [split_pr, hre, hu, hg]
    · intro e hg
      cases hre : raw.isEmpty <;> cases url <;>
        simp [split_pr, hre, hu, hg]

/-- Witness for C6: a fetch that raises a generic exception yields no
result for the sample record. -/
theorem split_pr_failure_containment_witness :
    failFetch sampleUrl = .raised ("boom".toList) ∧
    split_pr sampleRaw sampleCfg failFetch = none :=
  ⟨rfl,
   ((split_pr_failure_containment sampleRaw sampleCfg failFetch).2.2 sampleUrl
      (by decide)).2.2 ("boom".toList) rfl⟩

/-! ## The fetch layer -/

/-- The bookkeeping events contain no GET of the diff. -/
lemma httpGet_not_mem_preEvents (a : Attempt) (u : Line)
    (h : List (Line × Line)) : FetchEv.httpGet u h ∉ preEvents a := by
  unfold preEvents
  split_ifs <;> simp

/-- Trace of one pass through the body of `fetch_diff`. -/
lemma fetch_diff_cons_fst (tok : Option (List Char)) (url : List Char)
    (a : Attempt) (rest : List Attempt) :
    (fetch_diff tok url (a :: rest)).1 =
      preEvents a ++
        [FetchEv.httpGet (convert_to_api_url url) (requestHeaders tok)] ++
        (if a.status = 429 then
          [FetchEv.sleep (a.retryAfter.getD 60), FetchEv.rateCheck] ++
            (fetch_diff tok url rest).1
         else []) := by
  by_cases h404 : a.status = 404
  · simp [fetch_diff, h404]
  · by_cases h429 : a.status = 429
    · simp [fetch_diff, h404, h429]
    · by_cases herr : 400 ≤ a.status ∧ a.status < 600
      · simp [fetch_diff, h404, h429, herr]
      · simp [fetch_diff, h404, h429, herr]

/-- C9 (amended).  Every GET the fetcher issues goes to
`convert_to_api_url(diff_url)` — the record's diff location converted
to the API form when it matches the GitHub web `.diff` pattern,
unchanged otherwise — with the module headers: always the diff-format
`Accept` header, plus a `token` `Authorization` credential exactly
when a token is configured. -/
theorem fetch_get_at_api_url :
    ∀ (tok : Option (List Char)) (url : List Char) (attempts : List Attempt),
      (∀ e ∈ (fetch_diff tok url attempts).1, ∀ u h,
        e = FetchEv.httpGet u h →
          u = convert_to_api_url url ∧ h = requestHeaders tok) ∧
      (("Accept".toList, "application/vnd.github.v3.diff".toList) ∈
        requestHeaders tok) ∧
      (requestHeaders none =
        [("Accept".toList, "application/vnd.github.v3.diff".toList)]) ∧
      (∀ t, requestHeaders (some t) =
        [("Authorization".toList, "token ".toList ++ t),
         ("Accept".toList, "application/vnd.github.v3.diff".toList)]) := by
  intro tok url attempts
  refine ⟨?_, ?_, rfl, fun t => rfl⟩
  · induction attempts with
    | nil => intro e he; simp [fetch_diff] at he
    | cons a rest ih =>
      intro e he u h heq
      rw [fetch_diff_cons_fst] at he
      rcases List.mem_append.mp he with he1 | he2
      · rcases List.mem_append.mp he1 with hpre | hget
        · rw [heq] at hpre
          exact absurd hpre (httpGet_not_mem_preEvents a u h)
        · have : e = FetchEv.httpGet (convert_to_api_url url) (requestHeaders tok) := by
            simpa using hget
          rw [heq] at this
          exact ⟨(FetchEv.httpGet.injEq _ _ _ _).mp this.symm |>.1 |>.symm,
                 (FetchEv.httpGet.injEq _ _ _ _).mp this.symm |>.2 |>.symm⟩
      · by_cases h429 : a.status = 429
        · rw [if_pos h429] at he2
          rcases List.mem_append.mp he2 with hsl | htail
        -- the two retry bookkeeping events are not GETs
          · rw [heq] at hsl; simp at hsl
          · exact ih e htail u h heq
        · rw [if_neg h429] at he2
          simp at he2
  · cases tok <;> simp [requestHeaders]

/-- C9 counterexample.  For the sample record's diff location, the
GET is issued to the converted API URL, which differs from the
`diff_url` itself. -/
theorem fetch_get_not_at_diff_url :
    (fetch_diff none sampleUrl [okAttempt]).1 =
      [FetchEv.httpGet
        ("https://api.github.com/repos/octocat/hello/pulls/42".toList)
        (requestHeaders none)] ∧
    (("https://api.github.com/repos/octocat/hello/pulls/42".toList ==
        sampleUrl) = false) := by
  constructor
  · decide
  · decide

/-- Witness for C9: the GET event of the sample fetch, with a token
configured, targets `convert_to_api_url sampleUrl`. -/
theorem fetch_get_at_api_url_witness :
    FetchEv.httpGet
        ("https://api.github.com/repos/octocat/hello/pulls/42".toList)
        (requestHeaders (some ("TOK".toList))) ∈
      (fetch_diff (some ("TOK".toList)) sampleUrl [okAttempt]).1 ∧
    ("https://api.github.com/repos/octocat/hello/pulls/42".toList =
        convert_to_api_url sampleUrl ∧
      requestHeaders (some ("TOK".toList)) =
        requestHeaders (some ("TOK".toList))) :=
  ⟨by decide,
   (fetch_get_at_api_url (some ("TOK".toList)) sampleUrl [okAttempt]).1 _
     (by decide) _ _ rfl⟩

/-- C7 (code bug).  A persistent cache entry for the sample URL exists
(`get_cached_diff` finds what `cache_diff` stored), yet `fetch_diff`'s
whole effect trace for that URL is a single network GET: it consults
the cache neither before nor after the request — `get_cached_diff` and
`cache_diff` are never called. -/
theorem fetch_diff_never_touches_cache :
    get_cached_diff (cache_diff (fun _ => none) sampleUrl ("D".toList))
        sampleUrl = some ("D".toList) ∧
    fetch_diff none sampleUrl [okAttempt] =
      ([FetchEv.httpGet (convert_to_api_url sampleUrl) (requestHeaders none)],
       .ok ("D".toList)) := by
  constructor
  · decide
  · rfl

/-- C8 (code bug).  When the first request returns 429 the fetcher
sleeps for the `Retry-After` hint (7) and retries; when that single
retry *also* returns 429 it does not escalate as a transient error but
sleeps again (default 60) and issues a third request, which here
succeeds — the retry chain is unbounded while 429 persists, despite
the code's own `# one retry` comment. -/
theorem fetch_diff_retries_beyond_one :
    fetch_diff none sampleUrl [limitedAttempt, limitedAttemptNoHint, okAttempt] =
      ([FetchEv.httpGet (convert_to_api_url sampleUrl) (requestHeaders none),
        FetchEv.sleep 7, FetchEv.rateCheck,
        FetchEv.httpGet (convert_to_api_url sampleUrl) (requestHeaders none),
        FetchEv.sleep 60, FetchEv.rateCheck,
        FetchEv.httpGet (convert_to_api_url sampleUrl) (requestHeaders none)],
       .ok ("D".toList)) := by
  rfl

/-- C10.  `count_loc` counts exactly the lines that start with `+` but
not with `+++`; consequently an addition line whose content begins
with `++` (so the line itself starts with `+++`) is never counted —
concretely, a three-line patch with addition lines `+a`, `+++b`, `+c`
counts 2. -/
theorem count_loc_plus_lines :
    (∀ p : List Char,
      count_loc p = ((pySplitlines p).filter
        (fun l => (['+'].isPrefixOf l) && !(['+', '+', '+'].isPrefixOf l))).length) ∧
    (∀ c : List Char, countedAdd ('+' :: '+' :: '+' :: c) = false) ∧
    count_loc ("+a\n+++b\n+c".toList) = 2 := by
  refine ⟨fun p => rfl, fun c => ?_, by decide⟩
  simp [countedAdd, List.isPrefixOf]

end MaiData
